import Mathlib

/-!
Verification development for `delete-gh-workflows-python`, a CLI tool that
lists and deletes GitHub Actions workflow runs.  The authoritative sources
are `src/delete_gh_workflows/workflowManager.py` (class
`GitHubWorkflowManager`) and `src/delete_gh_workflows/main.py`
(`manage_workflow_runs`).  Python strings are embedded as `List Char`
(Python strings are sequences of code points); Python `str.split`,
`str.strip`, `str.lower`, `int(...)` and f-string formatting are embedded
below; fallible operations (`int` raising `ValueError`, indexing raising
`IndexError`) return `Option`.
-/

namespace DeleteGhWorkflows

/-- A Python string: a sequence of code points. -/
abbrev Str := List Char

/-- Python `str.strip()`: remove leading and trailing whitespace. -/
def pyStrip (s : Str) : Str :=
  ((s.dropWhile Char.isWhitespace).reverse.dropWhile Char.isWhitespace).reverse

/-- Python `str.lower()` (ASCII-faithful). -/
def pyLower (s : Str) : Str := s.map Char.toLower

/-- Fuel-driven worker for `pySplit`; the separator is `s0 :: sr` (kept
nonempty by construction, as Python refuses an empty separator).  Structural
recursion on the fuel keeps the function kernel-reducible. -/
def pySplitAux (s0 : Char) (sr : List Char) : Nat → List Char → List (List Char)
  | 0, l => [l]
  | _fuel + 1, [] => [[]]
  | fuel + 1, c :: rest =>
    if (s0 :: sr).isPrefixOf (c :: rest) then
      [] :: pySplitAux s0 sr fuel (rest.drop sr.length)
    else
      match pySplitAux s0 sr fuel rest with
      | [] => [[c]]
      | s :: ss => (c :: s) :: ss

/-- Python `s.split(sep)` with `sep = s0 :: sr`: split on every
non-overlapping occurrence, scanning left to right. -/
def pySplit (s0 : Char) (sr : List Char) (l : List Char) : List (List Char) :=
  pySplitAux s0 sr l.length l

/-- Python `s.split(sep, 1)` (maxsplit 1): split at the first occurrence
of `sep = s0 :: sr` only. -/
def pySplit1 (s0 : Char) (sr : List Char) : List Char → List (List Char)
  | [] => [[]]
  | c :: rest =>
    if (s0 :: sr).isPrefixOf (c :: rest) then
      [[], rest.drop sr.length]
    else
      match pySplit1 s0 sr rest with
      | [] => [[c]]
      | s :: ss => (c :: s) :: ss

/-- Whether the separator `s0 :: sr` occurs as a contiguous substring of
`l` (Python `sep in l`). -/
def hasOccur (s0 : Char) (sr : List Char) : List Char → Bool
  | [] => false
  | c :: rest => (s0 :: sr).isPrefixOf (c :: rest) || hasOccur s0 sr rest

/-- The decimal digit character for `d` (`0 ≤ d ≤ 9`). -/
def digitChar (d : Nat) : Char := Char.ofNat (48 + d)

/-- Fuel-driven decimal rendering of a natural number (the digits Python's
`str`/f-string prints for a nonnegative `int`). -/
def toDecAux : Nat → Nat → List Char
  | 0, _ => []
  | fuel + 1, n =>
    if n < 10 then [digitChar n] else toDecAux fuel (n / 10) ++ [digitChar (n % 10)]

/-- Decimal rendering of a natural number, as Python's f-string prints it. -/
def toDecimal (n : Nat) : List Char := toDecAux (n + 1) n

/-- Numeric value of a digit string (most significant digit first). -/
def parseVal (s : Str) : Nat := s.foldl (fun a c => a * 10 + (c.toNat - 48)) 0

/-- Python `int(s)` for a nonnegative decimal literal: surrounding
whitespace is allowed, then one or more digits; anything else raises
`ValueError`, embedded as `none`. -/
def pyIntParse (s : Str) : Option Nat :=
  let t := pyStrip s
  if t.isEmpty then none
  else if t.all Char.isDigit then some (parseVal t) else none

/-- A workflow run as returned by the GitHub API:
`(run["id"], run["name"], run["created_at"], run["status"])`. -/
structure WorkflowRun where
  id : Nat
  name : Str
  created_at : Str
  status : Str
deriving DecidableEq, Repr

/-- A workflow: `(workflow["id"], workflow["name"])`. -/
structure Workflow where
  id : Nat
  name : Str
deriving DecidableEq, Repr

/-! ## Pagination: `GitHubWorkflowManager.list_workflow_runs`

The API is embedded as the sequence of page responses: the response to the
request for page `i` (1-based) is `pages[i-1]`; a request beyond the end of
the list receives a successful empty page, as the live API answers past the
last run.  Each iteration of the `while True` loop issues a GET with
`params = (per_page := 100, page := n)`, embedded as the pair `(100, n)`. -/

/-- One HTTP response to a runs-listing request: the status code and the
decoded `workflow_runs` array. -/
structure PageResponse where
  status_code : Nat
  workflow_runs : List WorkflowRun
deriving DecidableEq, Repr

/-- The loop body of `list_workflow_runs`, started at page number `page`:
stop on a non-200 status (`if response.status_code != 200: break`), stop on
an empty page (`if not data: break`), otherwise accumulate and continue with
`page + 1`.  Returns the requests issued and the accumulated runs. -/
def fetchPages : List PageResponse → Nat → List (Nat × Nat) × List WorkflowRun
  | [], page => ([(100, page)], [])
  | p :: rest, page =>
    if p.status_code != 200 then ([(100, page)], [])
    else if p.workflow_runs.isEmpty then ([(100, page)], [])
    else
      let (reqs, runs) := fetchPages rest (page + 1)
      ((100, page) :: reqs, p.workflow_runs ++ runs)

/-- `GitHubWorkflowManager.list_workflow_runs`: paginate starting at page 1
with page size 100. -/
def list_workflow_runs (pages : List PageResponse) : List (Nat × Nat) × List WorkflowRun :=
  fetchPages pages 1

/-- A page the pagination loop consumes and keeps: HTTP 200 and at least
one run. -/
def goodPage (p : PageResponse) : Bool := p.status_code == 200 && !p.workflow_runs.isEmpty

/-- A page of 100 distinct runs, for the claims' concrete scenarios. -/
def runs100 : List WorkflowRun :=
  (List.range 100).map fun i => { id := i, name := [], created_at := [], status := [] }

/-! ## Run labels: formatting and ID recovery (`main.py` lines 57-59 and 83) -/

/-- The literal `" - Created: "` of the f-string at `main.py` line 58. -/
def strCreated : Str := " - Created: ".toList

/-- The literal `" - Status: "` of the f-string at `main.py` line 58. -/
def strStatus : Str := " - Status: ".toList

/-- The tail of the separator `"(ID: "`: the separator is `'(' :: sepIDrest`. -/
def sepIDrest : Str := "ID: ".toList

/-- The f-string of `main.py` line 58:
`f"{run[1]} - Created: {run[2]} - Status: {run[3]} (ID: {run[0]})"`. -/
def formatRunChoice (r : WorkflowRun) : Str :=
  r.name ++ strCreated ++ r.created_at ++ strStatus ++ r.status ++
    (' ' :: '(' :: sepIDrest) ++ toDecimal r.id ++ [')']

/-- ID recovery at `main.py` line 83: `int(run.split("(ID: ")[1][:-1])`.
`none` embeds the uncaught `IndexError`/`ValueError` exceptions. -/
def extractRunId (label : Str) : Option Nat :=
  match (pySplit '(' sepIDrest label)[1]? with
  | none => none
  | some part => pyIntParse part.dropLast

/-! ## Repository discovery: `GitHubWorkflowManager.__get_repo_info`

The method scans the git config's lines for the first whose stripped text
starts with `"url = "`, takes the text after the first `"="`, strips it,
takes `url.split("github.com/")[1]` and applies `.replace(".git", "")`.
Python `replace(old, "")` removes every occurrence, embedded as flattening
the split on `old`; a raised `IndexError` is caught by the method's
`except` and embedded as `none`. -/

/-- The marker `"url = "` a stripped config line must start with. -/
def strUrlEq : Str := "url = ".toList

/-- The scan condition of `__get_repo_info`:
`line.strip().startswith("url = ")`. -/
def isUrlLine (l : Str) : Bool := strUrlEq.isPrefixOf (pyStrip l)

/-- The tail of the host marker `"github.com/"` (`'g' :: ghSepRest`). -/
def ghSepRest : Str := "ithub.com/".toList

/-- The tail of the suffix `".git"` (`'.' :: gitSepRest`). -/
def gitSepRest : Str := "git".toList

/-- Python `s.replace(".git", "")`: remove every occurrence of `".git"`. -/
def removeDotGit (t : Str) : Str := (pySplit '.' gitSepRest t).flatten

/-- `GitHubWorkflowManager.__get_repo_info` over the config file's lines. -/
def get_repo_info (lines : List Str) : Option Str :=
  match lines.find? isUrlLine with
  | none => none
  | some line =>
    match (pySplit1 '=' [] line)[1]? with
    | none => none
    | some rhs =>
      match (pySplit 'g' ghSepRest (pyStrip rhs))[1]? with
      | none => none
      | some tail => some (removeDotGit tail)

/-! ## Display sorting: `runs.sort(key=lambda x: x[1].lower())` (`main.py` line 56)

Python's `list.sort` is a stable comparison sort of whole elements by key;
it is embedded as a stable insertion sort: each run is inserted after all
already-placed runs whose lowered name is not strictly greater. -/

/-- Lexicographic comparison of Python strings (`<=` on code points). -/
def lexLe : List Char → List Char → Bool
  | [], _ => true
  | _ :: _, [] => false
  | a :: as, b :: bs => if a < b then true else if b < a then false else lexLe as bs

/-- The sort key order of `main.py` line 56: lowered names, lexicographic. -/
def leRun (a b : WorkflowRun) : Bool := lexLe (pyLower a.name) (pyLower b.name)

/-- Stable insertion of a run: it goes before the first strictly greater
element, hence after every earlier element with an equal key. -/
def insertRun (r : WorkflowRun) : List WorkflowRun → List WorkflowRun
  | [] => [r]
  | y :: ys => if leRun r y && !leRun y r then r :: y :: ys else y :: insertRun r ys

/-- `runs.sort(key=lambda x: x[1].lower())`: stable sort of the run records
by case-insensitive name. -/
def sortByName (runs : List WorkflowRun) : List WorkflowRun :=
  runs.foldl (fun acc r => insertRun r acc) []

/-! ## Deleting one run: `GitHubWorkflowManager.delete_workflow_run`

The HTTP layer is embedded as `respond`, the status code the API answers
for a DELETE of a given run id; the function issues exactly one request
(the returned request list) and compares the status with 204. -/

/-- `delete_workflow_run(run_id)`: one DELETE request; the result is
`response.status_code == 204`. -/
def delete_workflow_run (run_id : Nat) (respond : Nat → Nat) : List Nat × Bool :=
  ([run_id], respond run_id == 204)

/-! ## Token acquisition: `GitHubWorkflowManager.__get_gh_token`

The external world is embedded as the exit codes of the three `gh`
invocations and the stdout of `gh auth token`.  `subprocess.run` raising
`FileNotFoundError` when `gh` is absent is caught (returning `None`);
`subprocess.run(['gh','auth','login'], check=True)` raising
`CalledProcessError` on a failed login is NOT caught by the method's
`except FileNotFoundError` and propagates, embedded as `GhResult.raised`. -/

/-- The observable behaviour of the external `gh` CLI. -/
structure GhEnv where
  ghInstalled : Bool
  authStatusRc : Nat
  loginRc : Nat
  tokenRc : Nat
  tokenStdout : Str
deriving DecidableEq, Repr

/-- The outcome of `__get_gh_token`: a returned value, or an uncaught
`CalledProcessError` from the `check=True` login call. -/
inductive GhResult where
  | raised : GhResult
  | value : Option Str → GhResult
deriving DecidableEq, Repr

/-- `GitHubWorkflowManager.__get_gh_token`: check auth status, log in when
unauthenticated (raising on a failed login), then fetch and strip the
token, returning `None` when the token command fails or `gh` is missing. -/
def get_gh_token (e : GhEnv) : GhResult :=
  if !e.ghInstalled then .value none
  else if e.authStatusRc != 0 && e.loginRc != 0 then .raised
  else if e.tokenRc == 0 then .value (some (pyStrip e.tokenStdout))
  else .value none

/-! ## The orchestrator: `manage_workflow_runs` (`src/delete_gh_workflows/main.py`)

The world the interactive loop talks to is embedded as streams of
responses consumed in order: the workflow-list responses (one per
outer-loop iteration), the run-list responses (one per
`list_workflow_runs` call, including the internal re-fetch inside
`delete_all_runs`), the `fzf` selection lists, the `click.prompt` answers
and the HTTP status codes of the delete calls (in call order).  An
exhausted stream yields falsy defaults (`[]`, status `0`).  Observable
effects are recorded as events.  `Outcome.crash` embeds an uncaught Python
exception (the interpreter prints a traceback and exits with status 1);
`Outcome.normalReturn` a plain `return` from the click command (exit
status 0).  The inner loop sorts the fetched runs with `sortByName` purely
to build the displayed labels; the user's selection arrives through the
fzf stream, so the sort is observable only through the labels (settled in
the sorting claim). -/

/-- The environment's response streams. -/
structure Env where
  workflowsResps : List (List Workflow)
  runsResps : List (List WorkflowRun)
  fzfResps : List (List Str)
  promptResps : List Str
  deleteResps : List Nat
deriving Repr

/-- Observable events of one run of the tool: API fetches, delete calls,
per-run reports, and the user-facing messages of `main.py`. -/
inductive Ev where
  | fetchWorkflows : Ev
  | fetchRuns : Nat → Ev
  | deleteCall : Nat → Ev
  | reportDeleted : Nat → Ev
  | reportFailed : Nat → Ev
  | msgTokenRequired : Ev
  | msgRepoRequired : Ev
  | msgNoWorkflows : Ev
  | msgExit : Ev
  | msgNoRunsFound : Ev
  | msgReturnBack : Ev
  | msgNoRunsSelected : Ev
  | msgNoRunsForWorkflow : Ev
deriving DecidableEq, Repr

/-- How the process ends: a normal return from the click command, or an
uncaught exception. -/
inductive Outcome where
  | normalReturn : Outcome
  | crash : Outcome
deriving DecidableEq, Repr

/-- The process exit status click/Python produces for each outcome. -/
def clickExitCode : Outcome → Nat
  | .normalReturn => 0
  | .crash => 1

def popWorkflows (e : Env) : List Workflow × Env :=
  (e.workflowsResps.headD [], { e with workflowsResps := e.workflowsResps.tail })

def popRuns (e : Env) : List WorkflowRun × Env :=
  (e.runsResps.headD [], { e with runsResps := e.runsResps.tail })

def popFzf (e : Env) : List Str × Env :=
  (e.fzfResps.headD [], { e with fzfResps := e.fzfResps.tail })

def popPrompt (e : Env) : Str × Env :=
  (e.promptResps.headD [], { e with promptResps := e.promptResps.tail })

def popDelete (e : Env) : Nat × Env :=
  (e.deleteResps.headD 0, { e with deleteResps := e.deleteResps.tail })

def strExit : Str := "Exit".toList

def strBack : Str := "Back".toList

def strDeleteAll : Str := "Delete All Runs".toList

def strYes : Str := "y".toList

/-- The workflow choice label `f"{workflow[1]} (ID: {workflow[0]})"`
(`main.py` line 35). -/
def wfLabel (w : Workflow) : Str :=
  w.name ++ (' ' :: '(' :: sepIDrest) ++ toDecimal w.id ++ [')']

/-- One step of the per-run delete loops (`main.py` lines 84-87 and
`delete_all_runs`): issue the DELETE, then report success (status 204) or
failure for that run id. -/
def deleteStepId (p : Env × List Ev) (i : Nat) : Env × List Ev :=
  let (st, e2) := popDelete p.1
  (e2, p.2 ++ [Ev.deleteCall i,
    if st == 204 then Ev.reportDeleted i else Ev.reportFailed i])

/-- `GitHubWorkflowManager.delete_all_runs`: re-fetch the workflow's runs,
report when there are none, otherwise delete each sequentially (in API
order), reporting each and continuing past failures. -/
def delete_all_runs (env : Env) (wf : Nat) : Env × List Ev :=
  let (runs, env1) := popRuns env
  if runs.isEmpty then (env1, [Ev.fetchRuns wf, Ev.msgNoRunsForWorkflow])
  else runs.foldl (fun p r => deleteStepId p r.id) (env1, [Ev.fetchRuns wf])

/-- The for-loop of `main.py` lines 83-87 over the parsed run ids of the
user's selection. -/
def deleteSelected (env : Env) (ids : List Nat) : Env × List Ev :=
  ids.foldl deleteStepId (env, [])

/-- How the inner loop hands control back: `break` to the outer loop
(carrying the updated environment), or an uncaught exception. -/
inductive InnerOut where
  | back : Env → List Ev → InnerOut
  | crashed : List Ev → InnerOut
deriving Repr

/-- Prepend this iteration's events to the inner loop's result. -/
def innerCont (tr : List Ev) : Option InnerOut → Option InnerOut
  | none => none
  | some (.back e t) => some (.back e (tr ++ t))
  | some (.crashed t) => some (.crashed (tr ++ t))

/-- The inner `while True` loop of `main.py` lines 47-90 for the selected
workflow id `wf`: fetch the runs (empty list breaks back), read the fzf
selection; `"Back"` breaks back; `"Delete All Runs"` prompts and on `y`
runs `delete_all_runs`; a nonempty selection prompts and on `y` parses
every chosen label (a failed parse is an uncaught exception) and deletes
each; an empty selection reports and loops.  `none` means the fuel ran out
inside the loop. -/
def innerLoop : Nat → Env → Nat → Option InnerOut
  | 0, _, _ => none
  | fuel + 1, env0, wf =>
    let (runs, env1) := popRuns env0
    if runs.isEmpty then some (.back env1 [Ev.fetchRuns wf, Ev.msgNoRunsFound])
    else
      let (sel, env2) := popFzf env1
      if sel.contains strBack then
        some (.back env2 [Ev.fetchRuns wf, Ev.msgReturnBack])
      else if sel.contains strDeleteAll then
        let (ans, env3) := popPrompt env2
        if pyLower ans == strYes then
          let (env4, trD) := delete_all_runs env3 wf
          innerCont (Ev.fetchRuns wf :: trD) (innerLoop fuel env4 wf)
        else innerCont [Ev.fetchRuns wf] (innerLoop fuel env3 wf)
      else if !sel.isEmpty then
        let (ans, env3) := popPrompt env2
        if pyLower ans == strYes then
          match sel.mapM extractRunId with
          | none => some (.crashed [Ev.fetchRuns wf])
          | some ids =>
            let (env4, trD) := deleteSelected env3 ids
            innerCont (Ev.fetchRuns wf :: trD) (innerLoop fuel env4 wf)
        else innerCont [Ev.fetchRuns wf] (innerLoop fuel env3 wf)
      else innerCont [Ev.fetchRuns wf, Ev.msgNoRunsSelected] (innerLoop fuel env2 wf)

/-- The outer `while True` loop of `main.py` lines 26-90: fetch the
workflows (an empty list returns), read the fzf selection; `"Exit"`
returns; an empty selection evaluates `selected_workflow[0]` and raises
`IndexError`; an unmatched label makes `next(...)` raise `StopIteration`;
otherwise run the inner loop for the chosen workflow and start over when
it breaks back. -/
def outerLoop : Nat → Env → Option (Outcome × List Ev)
  | 0, _ => none
  | fuel + 1, env0 =>
    let (wfs, env1) := popWorkflows env0
    if wfs.isEmpty then some (.normalReturn, [Ev.fetchWorkflows, Ev.msgNoWorkflows])
    else
      let (sel, env2) := popFzf env1
      if sel.contains strExit then some (.normalReturn, [Ev.fetchWorkflows, Ev.msgExit])
      else
        match sel with
        | [] => some (.crash, [Ev.fetchWorkflows])
        | name :: _ =>
          match wfs.find? (fun w => wfLabel w == name) with
          | none => some (.crash, [Ev.fetchWorkflows])
          | some w =>
            match innerLoop (fuel + 1) env2 w.id with
            | none => none
            | some (.crashed t) => some (.crash, Ev.fetchWorkflows :: t)
            | some (.back e t) =>
              match outerLoop fuel e with
              | none => none
              | some (o, t2) => some (o, Ev.fetchWorkflows :: (t ++ t2))

/-- Python truthiness of the token/repo attribute: `None` and the empty
string are falsy. -/
def truthyStr : Option Str → Bool
  | none => false
  | some s => !s.isEmpty

/-- `manage_workflow_runs` (`main.py`): a falsy token, then a falsy
repository, each return after a message; otherwise the interactive loops
run. -/
def manage_workflow_runs (token repo : Option Str) (env : Env) (fuel : Nat) :
    Option (Outcome × List Ev) :=
  if !truthyStr token then some (.normalReturn, [Ev.msgTokenRequired])
  else if !truthyStr repo then some (.normalReturn, [Ev.msgRepoRequired])
  else outerLoop fuel env

/-- The run id a delete-call event carries. -/
def evDeleteId : Ev → Option Nat
  | .deleteCall i => some i
  | _ => none

def env8 : Env :=
  { workflowsResps := [[{ id := 7, name := "w".toList }], []],
    runsResps := [
      [{ id := 11, name := "b".toList, created_at := "t1".toList, status := "s1".toList },
       { id := 12, name := "a".toList, created_at := "t2".toList, status := "s2".toList },
       { id := 13, name := "c".toList, created_at := "t3".toList, status := "s3".toList }],
      [{ id := 11, name := "b".toList, created_at := "t1".toList, status := "s1".toList },
       { id := 12, name := "a".toList, created_at := "t2".toList, status := "s2".toList },
       { id := 13, name := "c".toList, created_at := "t3".toList, status := "s3".toList }],
      []],
    fzfResps := [[wfLabel { id := 7, name := "w".toList }], [strDeleteAll]],
    promptResps := [strYes],
    deleteResps := [204, 500, 204] }

def env9 : Env :=
  { workflowsResps := [[{ id := 7, name := "w".toList }], []],
    runsResps := [
      [{ id := 21, name := "a".toList, created_at := "t1".toList, status := "s1".toList },
       { id := 22, name := "b".toList, created_at := "t2".toList, status := "s2".toList }],
      []],
    fzfResps := [[wfLabel { id := 7, name := "w".toList }],
      [formatRunChoice { id := 21, name := "a".toList, created_at := "t1".toList, status := "s1".toList },
       formatRunChoice { id := 22, name := "b".toList, created_at := "t2".toList, status := "s2".toList }]],
    promptResps := [strYes],
    deleteResps := [204, 404] }

def env6 : Env :=
  { workflowsResps := [[{ id := 1, name := "w".toList }]],
    runsResps := [], fzfResps := [[]], promptResps := [], deleteResps := [] }

def envExit : Env :=
  { workflowsResps := [[{ id := 1, name := "w".toList }]],
    runsResps := [], fzfResps := [[strExit]], promptResps := [], deleteResps := [] }

def envEmpty : Env :=
  { workflowsResps := [], runsResps := [], fzfResps := [], promptResps := [], deleteResps := [] }

/-! ## Theorems -/

theorem fetchPages_eq (pages : List PageResponse) (start : Nat) :
    fetchPages pages start =
      ((List.range' start ((pages.takeWhile goodPage).length + 1)).map fun n => (100, n),
       ((pages.takeWhile goodPage).map PageResponse.workflow_runs).flatten) := by
  induction pages generalizing start with
  | nil => simp [fetchPages, List.range'_succ]
  | cons p rest ih =>
    rw [fetchPages]
    by_cases h200 : p.status_code = 200
    · by_cases hemp : p.workflow_runs.isEmpty
      · simp [h200, hemp, goodPage, List.takeWhile_cons, List.range'_succ]
      · rw [if_neg (by simp [h200]), if_neg (by simp [hemp])]
        rw [ih (start + 1)]
        simp [goodPage, List.takeWhile_cons, h200, hemp, List.range'_succ]
    · have h : (p.status_code != 200) = true := by simpa using h200
      simp [h, goodPage, List.takeWhile_cons, h200, List.range'_succ]

/-- C1.  `list_workflow_runs` requests pages of size 100 starting at page 1
and incrementing by one, and returns the concatenation, in API order, of all
pages received before the first page that is empty or has a non-200 status:
the requests issued are exactly pages `1, 2, …, k+1` (with page size 100)
where `k` is the number of consecutive good pages consumed, and the result
is the flattening of those good pages.  In particular, when page 1 yields
100 items and page 2 yields a failing status 500, the result is exactly the
100 items of page 1, returned normally. -/
theorem c1_list_workflow_runs_pagination :
    (∀ pages : List PageResponse,
      list_workflow_runs pages =
        ((List.range' 1 ((pages.takeWhile goodPage).length + 1)).map fun n => (100, n),
         ((pages.takeWhile goodPage).map PageResponse.workflow_runs).flatten)) ∧
    list_workflow_runs
        [{ status_code := 200, workflow_runs := runs100 },
         { status_code := 500, workflow_runs := [] }] =
      ([(100, 1), (100, 2)], runs100) := by
  refine ⟨fun pages => fetchPages_eq pages 1, ?_⟩
  rfl

/-! ## Splitting lemmas

`pySplit` on a string of the form `a ++ sep ++ b`, where the separator
`sep = s0 :: sr` does not occur in `a` and its first character does not recur
inside it, yields `a` followed by the split of `b`.  The side condition
`s0 ∉ sr` rules out occurrences straddling the boundary between `a` and the
explicit separator. -/

theorem isPrefix_append_cases {α : Type} (a w s : List α) (h : s <+: a ++ w) :
    s <+: a ∨ ∃ z, s = a ++ z ∧ z <+: w := by
  induction a generalizing s with
  | nil => exact Or.inr ⟨s, rfl, by simpa using h⟩
  | cons x a' ih =>
    cases s with
    | nil => exact Or.inl (List.nil_prefix)
    | cons y s' =>
      rw [List.cons_append, List.cons_prefix_cons] at h
      rcases ih s' h.2 with h1 | ⟨z, hz, hzw⟩
      · exact Or.inl (List.cons_prefix_cons.mpr ⟨h.1, h1⟩)
      · exact Or.inr ⟨z, by rw [h.1, hz, List.cons_append], hzw⟩

theorem pySplitAux_fuel (s0 : Char) (sr : List Char) :
    ∀ f1 f2 l, l.length ≤ f1 → l.length ≤ f2 →
      pySplitAux s0 sr f1 l = pySplitAux s0 sr f2 l := by
  intro f1
  induction f1 with
  | zero =>
    intro f2 l h1 _
    have : l = [] := List.length_eq_zero.mp (Nat.le_zero.mp h1)
    subst this
    cases f2 <;> rfl
  | succ f ih =>
    intro f2 l h1 h2
    cases l with
    | nil => cases f2 <;> rfl
    | cons c rest =>
      cases f2 with
      | zero => exact absurd h2 (by simp)
      | succ g =>
        simp only [pySplitAux]
        by_cases hp : (s0 :: sr).isPrefixOf (c :: rest) = true
        · rw [if_pos hp, if_pos hp]
          rw [ih g (rest.drop sr.length) (by simp at h1 ⊢; omega) (by simp at h2 ⊢; omega)]
        · rw [if_neg hp, if_neg hp]
          rw [ih g rest (by simp at h1 ⊢; omega) (by simp at h2 ⊢; omega)]

theorem pySplitAux_no_occur (s0 : Char) (sr : List Char) :
    ∀ fuel l, l.length ≤ fuel → hasOccur s0 sr l = false →
      pySplitAux s0 sr fuel l = [l] := by
  intro fuel
  induction fuel with
  | zero => intro l _ _; rfl
  | succ f ih =>
    intro l hl ho
    cases l with
    | nil => rfl
    | cons c rest =>
      simp only [hasOccur, Bool.or_eq_false_iff] at ho
      simp only [pySplitAux, ho.1, Bool.false_eq_true, if_false]
      rw [ih rest (by simp at hl; omega) ho.2]

theorem pySplit_no_occur (s0 : Char) (sr l : List Char) (h : hasOccur s0 sr l = false) :
    pySplit s0 sr l = [l] :=
  pySplitAux_no_occur s0 sr l.length l (Nat.le_refl _) h

theorem pySplitAux_append (s0 : Char) (sr : List Char) (hs0 : s0 ∉ sr) :
    ∀ fuel a b, (a ++ (s0 :: sr) ++ b).length ≤ fuel → hasOccur s0 sr a = false →
      pySplitAux s0 sr fuel (a ++ (s0 :: sr) ++ b) = a :: pySplit s0 sr b := by
  intro fuel
  induction fuel with
  | zero => intro a b h _; exfalso; simp at h
  | succ f ih =>
    intro a b hl ha
    cases a with
    | nil =>
      simp only [List.nil_append, List.cons_append]
      have hp : (s0 :: sr).isPrefixOf (s0 :: (sr ++ b)) = true := by
        rw [List.isPrefixOf_iff_prefix]
        exact List.cons_prefix_cons.mpr ⟨rfl, List.prefix_append sr b⟩
      simp only [pySplitAux, if_pos hp]
      rw [List.drop_left]
      have hb : b.length ≤ f := by simp at hl; omega
      rw [pySplitAux_fuel s0 sr f b.length b hb (Nat.le_refl _)]
      rfl
    | cons c a' =>
      simp only [hasOccur, Bool.or_eq_false_iff] at ha
      have hshape : (c :: a') ++ (s0 :: sr) ++ b = c :: (a' ++ (s0 :: sr) ++ b) := by simp
      rw [hshape]
      have hp : (s0 :: sr).isPrefixOf (c :: (a' ++ (s0 :: sr) ++ b)) = false := by
        by_contra hcon
        rw [Bool.not_eq_false, List.isPrefixOf_iff_prefix] at hcon
        have hcon' : (s0 :: sr) <+: (c :: a') ++ ((s0 :: sr) ++ b) := by
          simpa [List.append_assoc] using hcon
        rcases isPrefix_append_cases (c :: a') ((s0 :: sr) ++ b) (s0 :: sr) hcon' with h1 | ⟨z, hz, hzw⟩
        · rw [← List.isPrefixOf_iff_prefix] at h1
          exact absurd h1 (by simp [ha.1])
        · cases z with
          | nil =>
            rw [List.append_nil] at hz
            have : (s0 :: sr).isPrefixOf (c :: a') = true := by
              rw [List.isPrefixOf_iff_prefix, hz]
            exact absurd this (by simp [ha.1])
          | cons zh z' =>
            rw [List.cons_append] at hz
            have hc : s0 = c := by injection hz
            have hsr : sr = a' ++ zh :: z' := by injection hz with _ h2
            have hzh : zh = s0 := by
              have := List.cons_prefix_cons.mp (by simpa using hzw)
              exact this.1
            apply hs0
            rw [hsr, hzh]
            simp
      simp only [pySplitAux, hp, Bool.false_eq_true, if_false]
      rw [ih a' b (by simp at hl ⊢; omega) ha.2]

theorem pySplit_append (s0 : Char) (sr : List Char) (hs0 : s0 ∉ sr)
    (a b : List Char) (ha : hasOccur s0 sr a = false) :
    pySplit s0 sr (a ++ (s0 :: sr) ++ b) = a :: pySplit s0 sr b :=
  pySplitAux_append s0 sr hs0 _ a b (Nat.le_refl _) ha

/-! ## Decimal rendering and parsing round trip -/

theorem digitChar_facts : ∀ d, d < 10 → (digitChar d).isDigit = true ∧
    (digitChar d).isWhitespace = false ∧ digitChar d ≠ '(' ∧ (digitChar d).toNat - 48 = d := by
  decide

theorem parseVal_concat (a : List Char) (c : Char) :
    parseVal (a ++ [c]) = parseVal a * 10 + (c.toNat - 48) := by
  unfold parseVal
  rw [List.foldl_append]
  rfl

theorem toDecAux_spec : ∀ fuel n, n < fuel →
    parseVal (toDecAux fuel n) = n ∧ toDecAux fuel n ≠ [] ∧
      ∀ c ∈ toDecAux fuel n, c.isDigit = true ∧ c.isWhitespace = false ∧ c ≠ '(' := by
  intro fuel
  induction fuel with
  | zero => intro n h; omega
  | succ f ih =>
    intro n hn
    by_cases h10 : n < 10
    · refine ⟨?_, by simp [toDecAux, h10], ?_⟩
      · simp [toDecAux, h10, parseVal, (digitChar_facts n h10).2.2.2]
      · intro c hc
        simp [toDecAux, h10] at hc
        subst hc
        exact ⟨(digitChar_facts n h10).1, (digitChar_facts n h10).2.1, (digitChar_facts n h10).2.2.1⟩
    · have hdiv : n / 10 < f := by
        have h1 : n / 10 < n := Nat.div_lt_self (by omega) (by omega)
        omega
      obtain ⟨hval, hne, hmem⟩ := ih (n / 10) hdiv
      have hm : n % 10 < 10 := Nat.mod_lt _ (by omega)
      refine ⟨?_, by simp [toDecAux, h10], ?_⟩
      · rw [show toDecAux (f + 1) n = toDecAux f (n / 10) ++ [digitChar (n % 10)] by
          simp [toDecAux, h10]]
        rw [parseVal_concat, hval, (digitChar_facts _ hm).2.2.2]
        omega
      · intro c hc
        simp only [toDecAux, if_neg h10, List.mem_append, List.mem_singleton] at hc
        rcases hc with hc | hc
        · exact hmem c hc
        · subst hc
          exact ⟨(digitChar_facts _ hm).1, (digitChar_facts _ hm).2.1, (digitChar_facts _ hm).2.2.1⟩

theorem dropWhile_eq_self_of_not (p : Char → Bool) (l : List Char)
    (h : ∀ c ∈ l, p c = false) : l.dropWhile p = l := by
  cases l with
  | nil => rfl
  | cons c rest => simp [List.dropWhile_cons, h c (by simp)]

theorem pyStrip_eq_self (l : Str) (h : ∀ c ∈ l, c.isWhitespace = false) : pyStrip l = l := by
  unfold pyStrip
  rw [dropWhile_eq_self_of_not _ l h,
    dropWhile_eq_self_of_not _ l.reverse (fun c hc => h c (List.mem_reverse.mp hc)),
    List.reverse_reverse]

theorem pyIntParse_toDecimal (n : Nat) : pyIntParse (toDecimal n) = some n := by
  obtain ⟨hval, hne, hmem⟩ := toDecAux_spec (n + 1) n (Nat.lt_succ_self n)
  unfold pyIntParse toDecimal
  rw [pyStrip_eq_self _ (fun c hc => (hmem c hc).2.1)]
  rw [if_neg (by simp [toDecimal] at hne ⊢; exact hne)]
  rw [if_pos (by rw [List.all_eq_true]; exact fun c hc => (hmem c hc).1)]
  exact congrArg some hval

theorem hasOccur_of_not_mem (s0 : Char) (sr : List Char) :
    ∀ t, s0 ∉ t → hasOccur s0 sr t = false := by
  intro t
  induction t with
  | nil => intro _; rfl
  | cons c rest ih =>
    intro h
    have hc : s0 ≠ c := fun hcon => h (hcon ▸ List.mem_cons_self c rest)
    have hrest : s0 ∉ rest := fun hcon => h (List.mem_cons_of_mem c hcon)
    have hb : (s0 == c) = false := by simp [hc]
    simp [hasOccur, List.isPrefixOf, hb, ih hrest]

theorem label_parts (r : WorkflowRun) :
    formatRunChoice r =
      (r.name ++ strCreated ++ r.created_at ++ strStatus ++ r.status ++ [' ']) ++
        ('(' :: sepIDrest) ++ (toDecimal r.id ++ [')']) := by
  simp [formatRunChoice]

/-- C3 counterexample: for the run with id 7 whose name contains the marker
text `"(ID: "`, recovering the ID from the formatted label the way
`main.py` line 83 does fails (Python raises `ValueError`), so the round
trip does not yield the ID: the claim's "for every name" is false. -/
theorem c3_roundtrip_counterexample :
    extractRunId (formatRunChoice
      { id := 7, name := "a(ID: b".toList, created_at := "c".toList, status := "s".toList }) ≠
      some 7 := by decide

/-- C3 (amended).  Formatting a run as
`"{name} - Created: {created_at} - Status: {status} (ID: {id})"` and then
recovering the ID by splitting on `"(ID: "` and dropping the trailing
parenthesis yields the run's original ID, for every name, timestamp and
status such that the text before the final ID marker does not contain the
substring `"(ID: "`. -/
theorem c3_label_roundtrip (r : WorkflowRun)
    (h : hasOccur '(' sepIDrest
      (r.name ++ strCreated ++ r.created_at ++ strStatus ++ r.status ++ [' ']) = false) :
    extractRunId (formatRunChoice r) = some r.id := by
  have hs0 : '(' ∉ sepIDrest := by decide
  have htailmem : '(' ∉ toDecimal r.id ++ [')'] := by
    intro hmem
    rcases List.mem_append.mp hmem with hm | hm
    · exact ((toDecAux_spec (r.id + 1) r.id (Nat.lt_succ_self _)).2.2 _ hm).2.2 rfl
    · simp at hm
  have htail : hasOccur '(' sepIDrest (toDecimal r.id ++ [')']) = false :=
    hasOccur_of_not_mem '(' sepIDrest _ htailmem
  rw [extractRunId, label_parts r,
    pySplit_append '(' sepIDrest hs0 _ _ h,
    pySplit_no_occur '(' sepIDrest _ htail]
  simp only [List.getElem?_cons_succ, List.getElem?_cons_zero]
  rw [List.dropLast_concat]
  exact pyIntParse_toDecimal r.id

theorem c3_label_roundtrip_witness :
    extractRunId (formatRunChoice
      { id := 42, name := "build".toList, created_at := "2024-01-01".toList,
        status := "completed".toList }) = some 42 :=
  c3_label_roundtrip _ (by decide)

/-- C4 counterexample: for the config line
`url = https://github.com/acme/wid.gits` — whose repository name contains
`".git"` in the middle and has no trailing `".git"` — the code returns
`"acme/wids"`, not `"acme/wid.gits"`: `.replace(".git", "")` removes every
occurrence, not only a trailing suffix. -/
theorem c4_counterexample :
    get_repo_info ["url = https://github.com/acme/wid.gits".toList] =
        some ("acme/wids".toList) ∧
      ("acme/wids".toList : Str) ≠ "acme/wid.gits".toList := by
  exact ⟨by decide, by decide⟩

/-- C4 (amended).  For every git config text whose first line with stripped
text starting `url = ` has, after the first `=`, a stripped URL of the form
`u ++ "github.com/" ++ tail` with `"github.com/"` occurring nowhere else,
`__get_repo_info` returns `tail` with every occurrence of `".git"` removed
(not only a trailing one); when `".git"` occurs in `tail` only as a
trailing suffix, this equals stripping that suffix. -/
theorem c4_get_repo_info (lines : List Str) (line rhs u tail : Str)
    (h1 : lines.find? isUrlLine = some line)
    (h2 : (pySplit1 '=' [] line)[1]? = some rhs)
    (h3 : pyStrip rhs = u ++ ('g' :: ghSepRest) ++ tail)
    (h4 : hasOccur 'g' ghSepRest u = false)
    (h5 : hasOccur 'g' ghSepRest tail = false) :
    get_repo_info lines = some (removeDotGit tail) ∧
      ∀ base : Str, hasOccur '.' gitSepRest base = false →
        removeDotGit (base ++ '.' :: gitSepRest) = base ∧ removeDotGit base = base := by
  constructor
  · have hg : 'g' ∉ ghSepRest := by decide
    rw [get_repo_info, h1]
    simp only [h2, h3,
      pySplit_append 'g' ghSepRest hg u tail h4,
      pySplit_no_occur 'g' ghSepRest tail h5,
      List.getElem?_cons_succ, List.getElem?_cons_zero]
  · intro base hb
    have hdot : '.' ∉ gitSepRest := by decide
    constructor
    · have : base ++ '.' :: gitSepRest = base ++ ('.' :: gitSepRest) ++ [] := by simp
      rw [removeDotGit, this, pySplit_append '.' gitSepRest hdot base [] hb]
      simp [pySplit, pySplitAux]
    · rw [removeDotGit, pySplit_no_occur '.' gitSepRest base hb]
      simp

theorem c4_get_repo_info_witness :
    get_repo_info
        ["# config".toList, "  url = https://github.com/acme/widgets.git".toList] =
      some ("acme/widgets".toList) := by
  have h := c4_get_repo_info
    ["# config".toList, "  url = https://github.com/acme/widgets.git".toList]
    ("  url = https://github.com/acme/widgets.git".toList)
    (" https://github.com/acme/widgets.git".toList)
    ("https://".toList)
    ("acme/widgets.git".toList)
    (by decide) (by decide) (by decide) (by decide) (by decide)
  rw [h.1]
  decide

theorem insertRun_perm (r : WorkflowRun) (l : List WorkflowRun) :
    (insertRun r l).Perm (r :: l) := by
  induction l with
  | nil => exact List.Perm.refl _
  | cons y ys ih =>
    rw [insertRun]
    by_cases h : (leRun r y && !leRun y r) = true
    · rw [if_pos h]
    · rw [if_neg h]
      exact (ih.cons y).trans (List.Perm.swap r y ys)

theorem sortByName_aux_perm (runs : List WorkflowRun) :
    ∀ acc, (runs.foldl (fun acc r => insertRun r acc) acc).Perm (runs ++ acc) := by
  induction runs with
  | nil => intro acc; exact List.Perm.refl _
  | cons r rs ih =>
    intro acc
    refine ((ih (insertRun r acc)).trans ?_)
    exact (List.Perm.append_left rs (insertRun_perm r acc)).trans List.perm_middle

/-- C2.  Sorting the fetched runs by name case-insensitively for display
permutes whole run records, so each run's id, name, created_at and status
stay together and every display label still pairs with the ID of the run it
describes: the sorted list is a permutation of the input with exactly the
same members.  For the runs named `["B", "a", "C"]` with IDs `[2, 1, 3]`,
the sorted order is `a (id 1), B (id 2), C (id 3)`. -/
theorem c2_sort_keeps_pairing :
    (∀ runs : List WorkflowRun, (sortByName runs).Perm runs) ∧
    (∀ (runs : List WorkflowRun) (r : WorkflowRun), r ∈ sortByName runs ↔ r ∈ runs) ∧
    sortByName
        [{ id := 2, name := "B".toList, created_at := "t2".toList, status := "s2".toList },
         { id := 1, name := "a".toList, created_at := "t1".toList, status := "s1".toList },
         { id := 3, name := "C".toList, created_at := "t3".toList, status := "s3".toList }] =
      [{ id := 1, name := "a".toList, created_at := "t1".toList, status := "s1".toList },
       { id := 2, name := "B".toList, created_at := "t2".toList, status := "s2".toList },
       { id := 3, name := "C".toList, created_at := "t3".toList, status := "s3".toList }] := by
  have hperm : ∀ runs : List WorkflowRun, (sortByName runs).Perm runs := by
    intro runs
    have := sortByName_aux_perm runs []
    rwa [List.append_nil] at this
  exact ⟨hperm, fun runs r => (hperm runs).mem_iff, by decide⟩

/-- C7.  `delete_workflow_run` issues exactly one DELETE request per call
(no automatic retry), and returns true if and only if the HTTP status of
that single request is exactly 204; every other status yields false. -/
theorem c7_delete_workflow_run (run_id : Nat) (respond : Nat → Nat) :
    (delete_workflow_run run_id respond).1 = [run_id] ∧
      ((delete_workflow_run run_id respond).2 = true ↔ respond run_id = 204) := by
  exact ⟨rfl, by simp [delete_workflow_run]⟩

/-- C10 counterexample: the claim fails at two concrete helper behaviours.
When `gh auth token` exits 0 with whitespace-only stdout, the method
returns the empty string — a non-Absent empty token.  When the user is
unauthenticated and `gh auth login` fails, the method raises an uncaught
`CalledProcessError` instead of returning Absent. -/
theorem c10_counterexample :
    get_gh_token { ghInstalled := true, authStatusRc := 0, loginRc := 0,
                   tokenRc := 0, tokenStdout := " ".toList } =
        GhResult.value (some []) ∧
      get_gh_token { ghInstalled := true, authStatusRc := 1, loginRc := 1,
                     tokenRc := 0, tokenStdout := "tok".toList } =
        GhResult.raised := by
  exact ⟨by decide, by decide⟩

/-- C10 (amended).  `__get_gh_token` returns Absent when the helper binary
is missing or when the token fetch command exits non-zero; a failed
interactive login raises an uncaught error instead of returning Absent;
and every non-Absent result is the helper's stdout trimmed of surrounding
whitespace, which may be the empty string. -/
theorem c10_get_gh_token (e : GhEnv) :
    (e.ghInstalled = false → get_gh_token e = GhResult.value none) ∧
      (e.ghInstalled = true → e.authStatusRc ≠ 0 → e.loginRc ≠ 0 →
        get_gh_token e = GhResult.raised) ∧
      (e.ghInstalled = true → (e.authStatusRc = 0 ∨ e.loginRc = 0) → e.tokenRc ≠ 0 →
        get_gh_token e = GhResult.value none) ∧
      (∀ t, get_gh_token e = GhResult.value (some t) →
        t = pyStrip e.tokenStdout ∧ e.tokenRc = 0 ∧ e.ghInstalled = true) := by
  refine ⟨fun h => by simp [get_gh_token, h], fun h1 h2 h3 => ?_, fun h1 hor h3 => ?_, fun t ht => ?_⟩
  · have hb : (e.authStatusRc != 0 && e.loginRc != 0) = true := by simp [h2, h3]
    simp [get_gh_token, h1, hb]
  · have hb : (e.authStatusRc != 0 && e.loginRc != 0) = false := by
      rcases hor with h | h <;> simp [h]
    have ht : (e.tokenRc == 0) = false := by simp [h3]
    simp [get_gh_token, h1, hb, ht]
  · rw [get_gh_token] at ht
    split_ifs at ht with h1 h2 h3 <;>
      first
        | exact ⟨by injection ht with hv; injection hv with hv2; exact hv2.symm,
            by simpa using h3, by simpa using h1⟩
        | exact absurd ht (by simp)

theorem deleteStepId_snd (p : Env × List Ev) (i : Nat) :
    (deleteStepId p i).2 = p.2 ++ [Ev.deleteCall i,
      if (popDelete p.1).1 == 204 then Ev.reportDeleted i else Ev.reportFailed i] := rfl

theorem deleteFold_filterMap (ids : List Nat) :
    ∀ (env : Env) (tr0 : List Ev),
      ((ids.foldl deleteStepId (env, tr0)).2).filterMap evDeleteId =
        tr0.filterMap evDeleteId ++ ids := by
  induction ids with
  | nil => intro env tr0; simp [deleteSelected]
  | cons i is ih =>
    intro env tr0
    rw [List.foldl_cons]
    have step := ih (deleteStepId (env, tr0) i).1 (deleteStepId (env, tr0) i).2
    calc (List.foldl deleteStepId (deleteStepId (env, tr0) i) is).2.filterMap evDeleteId
        = (deleteStepId (env, tr0) i).2.filterMap evDeleteId ++ is := step
      _ = tr0.filterMap evDeleteId ++ i :: is := by
          rw [deleteStepId_snd, List.filterMap_append]
          by_cases h : ((popDelete env).1 == 204) = true <;>
            simp [h, evDeleteId]

theorem deleteFold_length (ids : List Nat) :
    ∀ (env : Env) (tr0 : List Ev),
      ((ids.foldl deleteStepId (env, tr0)).2).length = tr0.length + 2 * ids.length := by
  induction ids with
  | nil => intro env tr0; simp
  | cons i is ih =>
    intro env tr0
    rw [List.foldl_cons]
    have step := ih (deleteStepId (env, tr0) i).1 (deleteStepId (env, tr0) i).2
    calc (List.foldl deleteStepId (deleteStepId (env, tr0) i) is).2.length
        = (deleteStepId (env, tr0) i).2.length + 2 * is.length := step
      _ = tr0.length + 2 * (i :: is).length := by
          rw [deleteStepId_snd, List.length_append]
          by_cases h : ((popDelete env).1 == 204) = true <;> simp [h] <;> omega

/-- C6.  When fzf returns an empty selection at the workflow-selection
step, `manage_workflow_runs` evaluates `selected_workflow[0]` on an empty
list and raises an uncaught `IndexError`: the process crashes instead of
treating the empty result as cancel. -/
theorem c6_empty_selection_crashes :
    manage_workflow_runs (some "t".toList) (some "r".toList) env6 1 =
      some (Outcome.crash, [Ev.fetchWorkflows]) := rfl

/-- C5 counterexample: when Init fails (no credential), the click command
prints a message and returns normally, so the process exits with status 0
— not the non-zero status the claim demands for an Init failure. -/
theorem c5_counterexample :
    manage_workflow_runs none none envEmpty 1 =
        some (Outcome.normalReturn, [Ev.msgTokenRequired]) ∧
      clickExitCode Outcome.normalReturn = 0 :=
  ⟨rfl, rfl⟩

/-- C5 (amended).  The process exits with status 0 on every graceful
termination — including user-initiated exit AND Init failure, which prints
an error message and returns normally — and a non-zero status occurs only
through an uncaught exception (a crash). -/
theorem c5_exit_codes (token repo : Option Str) (env : Env) (fuel : Nat) :
    (∀ out tr, manage_workflow_runs token repo env fuel = some (out, tr) →
      (clickExitCode out = 0 ↔ out = Outcome.normalReturn)) ∧
      (truthyStr token = false →
        manage_workflow_runs token repo env fuel =
          some (Outcome.normalReturn, [Ev.msgTokenRequired])) ∧
      (truthyStr token = true → truthyStr repo = false →
        manage_workflow_runs token repo env fuel =
          some (Outcome.normalReturn, [Ev.msgRepoRequired])) ∧
      manage_workflow_runs (some "t".toList) (some "r".toList) envExit 1 =
        some (Outcome.normalReturn, [Ev.fetchWorkflows, Ev.msgExit]) := by
  refine ⟨fun out tr _ => ?_, fun h => ?_, fun h1 h2 => ?_, rfl⟩
  · cases out <;> simp [clickExitCode]
  · simp [manage_workflow_runs, h]
  · simp [manage_workflow_runs, h1, h2]

theorem c5_exit_codes_witness :
    manage_workflow_runs none none envEmpty 1 =
        some (Outcome.normalReturn, [Ev.msgTokenRequired]) ∧
      (clickExitCode Outcome.normalReturn = 0 ↔ Outcome.normalReturn = Outcome.normalReturn) :=
  ⟨(c5_exit_codes none none envEmpty 1).2.1 rfl,
   (c5_exit_codes none none envEmpty 1).1 Outcome.normalReturn [Ev.msgTokenRequired]
     ((c5_exit_codes none none envEmpty 1).2.1 rfl)⟩

/-- C8.  Choosing "Delete All Runs" and confirming with yes issues exactly
one delete call per run of the selected workflow, in API order (regardless
of the sorted display order), best-effort past failures, then loops back
into run selection with a re-fetch.  The first conjunct: for every
environment, the delete calls of `delete_all_runs` are exactly the ids of
the fetched runs, once each, in order.  The second: in a full interactive
run over a 3-run workflow (delete statuses 204, 500, 204), the trace shows
the delete-all fetch, exactly 3 delete calls with per-run reports
(continuing past the failure), then a further run fetch (the loop's
re-fetch) before the user leaves. -/
theorem c8_delete_all_runs_trace :
    (∀ (env : Env) (wf : Nat),
      ((delete_all_runs env wf).2).filterMap evDeleteId =
        (env.runsResps.headD []).map WorkflowRun.id) ∧
      manage_workflow_runs (some "t".toList) (some "r".toList) env8 3 =
        some (Outcome.normalReturn,
          [Ev.fetchWorkflows, Ev.fetchRuns 7, Ev.fetchRuns 7,
           Ev.deleteCall 11, Ev.reportDeleted 11,
           Ev.deleteCall 12, Ev.reportFailed 12,
           Ev.deleteCall 13, Ev.reportDeleted 13,
           Ev.fetchRuns 7, Ev.msgNoRunsFound,
           Ev.fetchWorkflows, Ev.msgNoWorkflows]) := by
  constructor
  · intro env wf
    rw [delete_all_runs]
    simp only [popRuns]
    by_cases h : (env.runsResps.headD []).isEmpty
    · rw [if_pos h]
      rw [List.isEmpty_iff] at h
      simp [h, evDeleteId, ← List.headD_eq_head?_getD]
    · rw [if_neg h, ← List.foldl_map WorkflowRun.id deleteStepId,
        deleteFold_filterMap]
      simp [evDeleteId]
  · rfl

/-- C9.  When a batch of user-selected runs is deleted, every id is
attempted exactly once in order with a per-run report, regardless of
individual failures (first conjunct, for every environment and id list:
the delete calls are exactly the ids and the trace holds one call plus one
report per id).  Second conjunct: in a full interactive run where the user
selects 2 runs and the deletes answer 204 then 404, one success and one
failure are reported and the second run is still attempted. -/
theorem c9_batch_delete_reports :
    (∀ (env : Env) (ids : List Nat),
      ((deleteSelected env ids).2).filterMap evDeleteId = ids ∧
        ((deleteSelected env ids).2).length = 2 * ids.length) ∧
      manage_workflow_runs (some "t".toList) (some "r".toList) env9 3 =
        some (Outcome.normalReturn,
          [Ev.fetchWorkflows, Ev.fetchRuns 7,
           Ev.deleteCall 21, Ev.reportDeleted 21,
           Ev.deleteCall 22, Ev.reportFailed 22,
           Ev.fetchRuns 7, Ev.msgNoRunsFound,
           Ev.fetchWorkflows, Ev.msgNoWorkflows]) := by
  refine ⟨fun env ids => ⟨?_, ?_⟩, rfl⟩
  · rw [deleteSelected, deleteFold_filterMap]
    rfl
  · rw [deleteSelected, deleteFold_length]
    simp
end DeleteGhWorkflows
